import Mathlib

/-!
# Verification of the elasticsearch backfill app

Shallow embedding of `scripts/elasticsearch_backfill_app.py`
(`ElasticsearchBackfillApp`): the per-day backfill loop in `main`,
`get_index_for_date`, `format_dates_in_crash`, and `index_crashes`,
together with models of the external collaborators the loop calls
(`json.loads`, `socorro.lib.datetimeutil`, the HBase fetch with retries,
and the elasticsearch storage, observed through an event trace).
-/

namespace Backfill

/-- A JSON-decoded field value, as produced by `json.loads` on one raw
processed-crash payload: a string, a number, a boolean, or null. -/
inductive JValue where
  | str (s : String)
  | num (n : Int)
  | bool (b : Bool)
  | null
deriving DecidableEq

/-- A processed crash record: a mapping from field names to values
(the Python dict `processed_crash`), embedded as an association list. -/
abbrev Record := List (String × JValue)

/-- A parsed date/time value, the result of
`datetimeutil.string_to_datetime`. -/
structure DateTime where
  year : Nat
  month : Nat
  day : Nat
  hour : Nat
  minute : Nat
  second : Nat
deriving DecidableEq

/-- Is the character an ASCII decimal digit? -/
def isDig (c : Char) : Bool := 48 ≤ c.toNat && c.toNat ≤ 57

/-- Numeric value of an ASCII digit character. -/
def digitVal (c : Char) : Nat := c.toNat - 48

/-- Two-digit zero-padded decimal rendering of `n < 100`. -/
def pad2 (n : Nat) : List Char :=
  [Char.ofNat (48 + n / 10), Char.ofNat (48 + n % 10)]

/-- Four-digit zero-padded decimal rendering of `n < 10000`. -/
def pad4 (n : Nat) : List Char :=
  [Char.ofNat (48 + n / 1000), Char.ofNat (48 + n / 100 % 10),
   Char.ofNat (48 + n / 10 % 10), Char.ofNat (48 + n % 10)]

/-- Read exactly two digit characters as a number. -/
def parse2 : List Char → Option (Nat × List Char)
  | a :: b :: rest =>
    if isDig a && isDig b then some (10 * digitVal a + digitVal b, rest) else none
  | _ => none

/-- Read exactly four digit characters as a number. -/
def parse4 : List Char → Option (Nat × List Char)
  | a :: b :: c :: d :: rest =>
    if isDig a && isDig b && isDig c && isDig d then
      some (1000 * digitVal a + 100 * digitVal b + 10 * digitVal c + digitVal d, rest)
    else none
  | _ => none

/-- Consume one expected character. -/
def expectChar (c : Char) : List Char → Option (List Char)
  | x :: rest => if x = c then some rest else none
  | [] => none

/-- Accepted trailing time-zone designators: none, `Z`, or `+00:00`. -/
def validTZ : List Char → Bool
  | [] => true
  | ['Z'] => true
  | ['+', '0', '0', ':', '0', '0'] => true
  | _ => false

/-- Parse the `YYYY-MM-DD` date part, returning the remaining input. -/
def parseDateChars (cs : List Char) : Option (Nat × Nat × Nat × List Char) := do
  let (y, r1) ← parse4 cs
  let r2 ← expectChar '-' r1
  let (mo, r3) ← parse2 r2
  let r4 ← expectChar '-' r3
  let (d, r5) ← parse2 r4
  pure (y, mo, d, r5)

/-- Parse the `HH:MM:SS` time part, returning the remaining input. -/
def parseTime (cs : List Char) : Option (Nat × Nat × Nat × List Char) := do
  let (h, r1) ← parse2 cs
  let r2 ← expectChar ':' r1
  let (mi, r3) ← parse2 r2
  let r4 ← expectChar ':' r3
  let (s, r5) ← parse2 r4
  pure (h, mi, s, r5)

/-- Modelled from the spec: `datetimeutil.string_to_datetime` is not under
`src/` (it lives in `socorro.lib`); the spec says it attempts to parse a
field value as a date/time string in any of the source's accepted formats.
Accepted here: `YYYY-MM-DD`, and `YYYY-MM-DD{T| }HH:MM:SS` optionally
followed by `Z` or `+00:00`. -/
def parseDatetimeChars (cs : List Char) : Option DateTime := do
  let (y, mo, d, r) ← parseDateChars cs
  match r with
  | [] => pure ⟨y, mo, d, 0, 0, 0⟩
  | sep :: r1 =>
    if sep = 'T' || sep = ' ' then do
      let (h, mi, s, r2) ← parseTime r1
      if validTZ r2 then pure ⟨y, mo, d, h, mi, s⟩ else none
    else none

/-- The canonical serialized form of a date/time value. -/
def dtChars (dt : DateTime) : List Char :=
  pad4 dt.year ++ ('-' :: (pad2 dt.month ++ ('-' :: (pad2 dt.day ++
  ('T' :: (pad2 dt.hour ++ (':' :: (pad2 dt.minute ++ (':' :: (pad2 dt.second ++
  ['+', '0', '0', ':', '0', '0']))))))))))

/-- Modelled from the spec: `datetimeutil.date_to_string` is not under
`src/`; the spec says it rewrites a parsed date/time to one canonical
output format (here `YYYY-MM-DDTHH:MM:SS+00:00`). -/
def date_to_string (dt : DateTime) : String := ⟨dtChars dt⟩

/-- `datetimeutil.string_to_datetime` applied to a JSON value: a
non-string raises `TypeError` (modelled as `none`); a string is parsed,
with an unrecognized format raising `ValueError`/`ISO8601Error`
(also `none`). -/
def string_to_datetime (v : JValue) : Option DateTime :=
  match v with
  | JValue.str s => parseDatetimeChars s.data
  | _ => none

/-- One field-value step of `format_dates_in_crash`: the body of the
`try` block rewrites the value to
`date_to_string (string_to_datetime value)`, and the `except` clause for
`ValueError`/`TypeError`/`ISO8601Error` leaves the value unchanged. -/
def formatDateValue (v : JValue) : JValue :=
  match string_to_datetime v with
  | some dt => JValue.str (date_to_string dt)
  | none => v

/-- `ElasticsearchBackfillApp.format_dates_in_crash`: applies the
per-field date rewrite to every field of the record. -/
def format_dates_in_crash (processed_crash : Record) : Record :=
  processed_crash.map fun kv => (kv.1, formatDateValue kv.2)

/-! ## Round-trip facts about the date model -/

lemma digit_ofNat : ∀ k < 10,
    isDig (Char.ofNat (48 + k)) = true ∧ digitVal (Char.ofNat (48 + k)) = k := by
  decide

lemma parse2_pad2 (n : Nat) (h : n < 100) (rest : List Char) :
    parse2 (pad2 n ++ rest) = some (n, rest) := by
  obtain ⟨ha1, ha2⟩ := digit_ofNat (n / 10) (by omega)
  obtain ⟨hb1, hb2⟩ := digit_ofNat (n % 10) (by omega)
  simp only [pad2, List.cons_append, List.nil_append, parse2, ha1, hb1,
    Bool.and_self, if_true, Option.some.injEq, Prod.mk.injEq, and_true]
  rw [ha2, hb2]
  omega

lemma parse4_pad4 (n : Nat) (h : n < 10000) (rest : List Char) :
    parse4 (pad4 n ++ rest) = some (n, rest) := by
  obtain ⟨ha1, ha2⟩ := digit_ofNat (n / 1000) (by omega)
  obtain ⟨hb1, hb2⟩ := digit_ofNat (n / 100 % 10) (by omega)
  obtain ⟨hc1, hc2⟩ := digit_ofNat (n / 10 % 10) (by omega)
  obtain ⟨hd1, hd2⟩ := digit_ofNat (n % 10) (by omega)
  simp only [pad4, List.cons_append, List.nil_append, parse4, ha1, hb1, hc1, hd1,
    Bool.and_self, if_true, Option.some.injEq, Prod.mk.injEq, and_true]
  rw [ha2, hb2, hc2, hd2]
  omega

lemma digitVal_lt (c : Char) (h : isDig c = true) : digitVal c < 10 := by
  simp only [isDig, Bool.and_eq_true, decide_eq_true_eq] at h
  simp only [digitVal]
  omega

lemma parse2_bound {cs : List Char} {n : Nat} {r : List Char}
    (h : parse2 cs = some (n, r)) : n < 100 := by
  match cs with
  | [] => simp [parse2] at h
  | [a] => simp [parse2] at h
  | a :: b :: rest =>
    simp only [parse2] at h
    split at h
    · rename_i hd
      simp only [Bool.and_eq_true] at hd
      have ha := digitVal_lt a hd.1
      have hb := digitVal_lt b hd.2
      simp only [Option.some.injEq, Prod.mk.injEq] at h
      omega
    · simp at h

lemma parse4_bound {cs : List Char} {n : Nat} {r : List Char}
    (h : parse4 cs = some (n, r)) : n < 10000 := by
  match cs with
  | [] => simp [parse4] at h
  | [a] => simp [parse4] at h
  | [a, b] => simp [parse4] at h
  | [a, b, c] => simp [parse4] at h
  | a :: b :: c :: d :: rest =>
    simp only [parse4] at h
    split at h
    · rename_i hd
      simp only [Bool.and_eq_true] at hd
      have ha := digitVal_lt a hd.1.1.1
      have hb := digitVal_lt b hd.1.1.2
      have hc := digitVal_lt c hd.1.2
      have hd4 := digitVal_lt d hd.2
      simp only [Option.some.injEq, Prod.mk.injEq] at h
      omega
    · simp at h

/-- Components a parse can produce: each fits its fixed field width. -/
def inRange (dt : DateTime) : Prop :=
  dt.year < 10000 ∧ dt.month < 100 ∧ dt.day < 100 ∧
  dt.hour < 100 ∧ dt.minute < 100 ∧ dt.second < 100

lemma parseDateChars_bound {cs : List Char} {y mo d : Nat} {r : List Char}
    (h : parseDateChars cs = some (y, mo, d, r)) :
    y < 10000 ∧ mo < 100 ∧ d < 100 := by
  simp only [parseDateChars, Option.bind_eq_bind, Option.bind_eq_some, Option.pure_def,
    Option.some.injEq] at h
  obtain ⟨a, ha, r2, hr2, b, hb, r4, hr4, c, hc, heq⟩ := h
  obtain ⟨y1, r1⟩ := a
  obtain ⟨m1, r3⟩ := b
  obtain ⟨d1, r5⟩ := c
  simp only [Prod.mk.injEq] at heq
  obtain ⟨e1, e2, e3, e4⟩ := heq
  subst e1 e2 e3
  exact ⟨parse4_bound ha, parse2_bound hb, parse2_bound hc⟩

lemma parseTime_bound {cs : List Char} {hr mi s : Nat} {r : List Char}
    (h : parseTime cs = some (hr, mi, s, r)) :
    hr < 100 ∧ mi < 100 ∧ s < 100 := by
  simp only [parseTime, Option.bind_eq_bind, Option.bind_eq_some, Option.pure_def,
    Option.some.injEq] at h
  obtain ⟨a, ha, r2, hr2, b, hb, r4, hr4, c, hc, heq⟩ := h
  obtain ⟨h1, r1⟩ := a
  obtain ⟨m1, r3⟩ := b
  obtain ⟨s1, r5⟩ := c
  simp only [Prod.mk.injEq] at heq
  obtain ⟨e1, e2, e3, e4⟩ := heq
  subst e1 e2 e3
  exact ⟨parse2_bound ha, parse2_bound hb, parse2_bound hc⟩

lemma parseDatetimeChars_inRange {cs : List Char} {dt : DateTime}
    (h : parseDatetimeChars cs = some dt) : inRange dt := by
  simp only [parseDatetimeChars, Option.bind_eq_bind, Option.bind_eq_some] at h
  obtain ⟨a, hdate, hrest⟩ := h
  obtain ⟨y, mo, d, r⟩ := a
  have hb := parseDateChars_bound hdate
  cases r with
  | nil =>
    simp only [Option.pure_def, Option.some.injEq] at hrest
    subst hrest
    exact ⟨hb.1, hb.2.1, hb.2.2, by norm_num, by norm_num, by norm_num⟩
  | cons sep r1 =>
    simp only at hrest
    split at hrest
    · simp only [Option.bind_eq_bind, Option.bind_eq_some] at hrest
      obtain ⟨b, htime, htz⟩ := hrest
      obtain ⟨hh, mi, s, r2⟩ := b
      have ht := parseTime_bound htime
      split at htz
      · simp only [Option.pure_def, Option.some.injEq] at htz
        subst htz
        exact ⟨hb.1, hb.2.1, hb.2.2, ht.1, ht.2.1, ht.2.2⟩
      · simp at htz
    · simp at hrest

lemma parseDatetimeChars_dtChars (dt : DateTime) (h : inRange dt) :
    parseDatetimeChars (dtChars dt) = some dt := by
  obtain ⟨h1, h2, h3, h4, h5, h6⟩ := h
  simp [dtChars, parseDatetimeChars, parseDateChars, parseTime,
    parse4_pad4 dt.year h1, parse2_pad2 dt.month h2, parse2_pad2 dt.day h3,
    parse2_pad2 dt.hour h4, parse2_pad2 dt.minute h5, parse2_pad2 dt.second h6,
    expectChar, validTZ]

lemma string_to_datetime_roundtrip (dt : DateTime) (h : inRange dt) :
    string_to_datetime (JValue.str (date_to_string dt)) = some dt := by
  simp only [string_to_datetime, date_to_string]
  exact parseDatetimeChars_dtChars dt h

lemma formatDateValue_idem (v : JValue) :
    formatDateValue (formatDateValue v) = formatDateValue v := by
  match hv : string_to_datetime v with
  | none =>
    have hfix : formatDateValue v = v := by simp [formatDateValue, hv]
    rw [hfix]
    exact hfix
  | some dt =>
    have hr : inRange dt := by
      match v, hv with
      | JValue.str s, hv =>
        exact parseDatetimeChars_inRange (by simpa [string_to_datetime] using hv)
    have h1 : formatDateValue v = JValue.str (date_to_string dt) := by
      simp [formatDateValue, hv]
    rw [h1]
    simp [formatDateValue, string_to_datetime_roundtrip dt hr]

/-! ## Calendar days and the date window -/

/-- A calendar date (`datetime.date`): proleptic Gregorian calendar. -/
structure Date where
  year : Int
  month : Nat
  day : Nat
deriving DecidableEq

/-- Gregorian leap-year rule. -/
def isLeapYear (y : Int) : Bool := (y % 4 == 0 && y % 100 != 0) || y % 400 == 0

/-- Number of days of a month in the Gregorian calendar. -/
def daysInMonth (y : Int) (m : Nat) : Nat :=
  if m = 2 then (if isLeapYear y then 29 else 28)
  else if m = 4 ∨ m = 6 ∨ m = 9 ∨ m = 11 then 30
  else 31

/-- `current_date -= one_day` with `one_day = datetime.timedelta(days=1)`:
the previous calendar day. -/
def predDay (d : Date) : Date :=
  if 1 < d.day then ⟨d.year, d.month, d.day - 1⟩
  else if 1 < d.month then ⟨d.year, d.month - 1, daysInMonth d.year (d.month - 1)⟩
  else ⟨d.year - 1, 12, 31⟩

/-- Chronological strict order on dates (lexicographic). -/
def dateLt (a b : Date) : Prop :=
  a.year < b.year ∨
  (a.year = b.year ∧ (a.month < b.month ∨ (a.month = b.month ∧ a.day < b.day)))

lemma predDay_lt (d : Date) : dateLt (predDay d) d := by
  unfold predDay
  split
  · next h => exact Or.inr ⟨rfl, Or.inr ⟨rfl, show d.day - 1 < d.day by omega⟩⟩
  · split
    · next h1 h2 => exact Or.inr ⟨rfl, Or.inl (show d.month - 1 < d.month by omega)⟩
    · exact Or.inl (show d.year - 1 < d.year by omega)

/-- The descending sequence of days the loop `for i in range(duration)`
touches, starting at the end date: the loop body uses `current_date` and
then steps `current_date -= one_day`. -/
def daysFrom : Date → Nat → List Date
  | _, 0 => []
  | d, n + 1 => d :: daysFrom (predDay d) n

/-- The date window of `main`: `duration` consecutive days descending
from `end_date` (Python `range` of a non-positive `duration` is empty). -/
def backfillDays (end_date : Date) (duration : Int) : List Date :=
  daysFrom end_date duration.toNat

lemma daysFrom_length (d : Date) (n : Nat) : (daysFrom d n).length = n := by
  induction n generalizing d with
  | zero => rfl
  | succ n ih => simp [daysFrom, ih]

lemma daysFrom_chain (d : Date) (n : Nat) :
    List.Chain' (fun a b => b = predDay a ∧ dateLt b a) (daysFrom d n) := by
  induction n generalizing d with
  | zero => simp [daysFrom]
  | succ n ih =>
    cases n with
    | zero => simp [daysFrom]
    | succ m =>
      refine List.chain'_cons.mpr ⟨⟨rfl, predDay_lt d⟩, ih (predDay d)⟩

/-! ## strftime and the index name -/

/-- `datetime.date.strftime` restricted to the directives the app's
configuration can meaningfully contain (`%Y`, `%y`, `%m`, `%d`, `%%`);
any other character, and any unrecognized directive, passes through
unchanged. -/
def strftimeChars (date : Date) : List Char → List Char
  | [] => []
  | c :: rest =>
    if c = '%' then
      match rest with
      | [] => ['%']
      | c2 :: rest2 =>
        (if c2 = 'Y' then pad4 date.year.toNat
         else if c2 = 'y' then pad2 (date.year % 100).toNat
         else if c2 = 'm' then pad2 date.month
         else if c2 = 'd' then pad2 date.day
         else if c2 = '%' then ['%']
         else ['%', c2]) ++ strftimeChars date rest2
    else c :: strftimeChars date rest

/-- The template contains no date-format placeholder: no `%` followed by
a recognized directive character (and no `%%` escape). -/
def noPlaceholder : List Char → Bool
  | [] => true
  | c :: rest =>
    if c = '%' then
      match rest with
      | [] => true
      | c2 :: rest2 =>
        !(c2 = 'Y' || c2 = 'y' || c2 = 'm' || c2 = 'd' || c2 = '%') && noPlaceholder rest2
    else noPlaceholder rest

/-- `ElasticsearchBackfillApp.get_index_for_date`: returns the
elasticsearch index name for a day, from the configured
`elasticsearch_index` template — `None` when the template is empty,
`day.strftime(template)` when the template contains `%`, and the
template itself otherwise. -/
def get_index_for_date (elasticsearch_idx : String) (day : Date) : Option String :=
  if elasticsearch_idx = "" then none
  else if '%' ∈ elasticsearch_idx.data then some ⟨strftimeChars day elasticsearch_idx.data⟩
  else some elasticsearch_idx

lemma strftimeChars_cons (date : Date) (c : Char) (rest : List Char) :
    strftimeChars date (c :: rest) =
      if c = '%' then
        match rest with
        | [] => ['%']
        | c2 :: rest2 =>
          (if c2 = 'Y' then pad4 date.year.toNat
           else if c2 = 'y' then pad2 (date.year % 100).toNat
           else if c2 = 'm' then pad2 date.month
           else if c2 = 'd' then pad2 date.day
           else if c2 = '%' then ['%']
           else ['%', c2]) ++ strftimeChars date rest2
      else c :: strftimeChars date rest := by
  cases rest <;> rfl

lemma noPlaceholder_cons (c : Char) (rest : List Char) :
    noPlaceholder (c :: rest) =
      if c = '%' then
        match rest with
        | [] => true
        | c2 :: rest2 =>
          !(c2 = 'Y' || c2 = 'y' || c2 = 'm' || c2 = 'd' || c2 = '%') && noPlaceholder rest2
      else noPlaceholder rest := by
  cases rest <;> rfl

lemma strftimeChars_id (date : Date) :
    ∀ (n : Nat) (cs : List Char), cs.length ≤ n → noPlaceholder cs = true →
      strftimeChars date cs = cs := by
  intro n
  induction n with
  | zero =>
    intro cs hlen _
    have hnil : cs = [] := List.eq_nil_of_length_eq_zero (by omega)
    subst hnil
    rfl
  | succ n ih =>
    intro cs hlen hnp
    cases cs with
    | nil => rfl
    | cons c rest =>
      by_cases hc : c = '%'
      · subst hc
        cases rest with
        | nil => rfl
        | cons c2 rest2 =>
          rw [noPlaceholder_cons, if_pos rfl] at hnp
          simp only [Bool.and_eq_true, Bool.not_eq_true', Bool.or_eq_false_iff,
            decide_eq_false_iff_not] at hnp
          obtain ⟨⟨⟨⟨⟨hY, hy⟩, hm⟩, hd⟩, hp⟩, hrest⟩ := hnp
          rw [strftimeChars_cons, if_pos rfl]
          simp only [if_neg hY, if_neg hy, if_neg hm, if_neg hd, if_neg hp,
            List.cons_append, List.nil_append]
          have hlen2 : rest2.length ≤ n := by
            simp only [List.length_cons] at hlen
            omega
          rw [ih rest2 hlen2 hrest]
      · rw [noPlaceholder_cons, if_neg hc] at hnp
        rw [strftimeChars_cons, if_neg hc]
        have hlen2 : rest.length ≤ n := by
          simp only [List.length_cons] at hlen
          omega
        rw [ih rest hlen2 hnp]

/-! ## The orchestrator: `ElasticsearchBackfillApp.main` -/

/-- A raw serialized report as returned by
`hb_client.get_list_of_processed_json_for_date`: its payload either
decodes (via `json.loads`) to a record, or is malformed. -/
inductive RawDoc where
  | ok (r : Record)
  | bad (msg : String)
deriving DecidableEq

/-- The external `json.loads`: decodes a raw payload or raises
`ValueError` (modelled as `Except.error`), which `main` does not catch. -/
def jsonLoads : RawDoc → Except String Record
  | RawDoc.ok r => Except.ok r
  | RawDoc.bad msg => Except.error msg

/-- The batching step of `main`, one record at a time over the
`for report in reports` loop: before appending a crash, if
`len(crashes_to_index) > index_doc_number` the pending list is submitted
and reset; then the crash is appended. Returns the submitted batches, in
submission order, and the pending list left at the end of the loop. -/
def batchFold (t : Int) : List Record → List Record → List (List Record) × List Record
  | acc, [] => ([], acc)
  | acc, c :: rest =>
    if (acc.length : Int) > t then
      let p := batchFold t [c] rest
      (acc :: p.1, p.2)
    else batchFold t (acc ++ [c]) rest

/-- The per-day report loop of `main`: `json.loads` each report (an
uncaught decode error aborts on the spot), normalize dates, and batch
with threshold `index_doc_number`. Returns the batches submitted by the
loop and either the pending crashes at loop end or the decode error. -/
def processReports (t : Int) (acc : List Record) :
    List RawDoc → List (List Record) × Except String (List Record)
  | [] => ([], Except.ok acc)
  | raw :: rest =>
    match jsonLoads raw with
    | Except.error msg => ([], Except.error msg)
    | Except.ok crash =>
      if (acc.length : Int) > t then
        let p := processReports t [format_dates_in_crash crash] rest
        (acc :: p.1, p.2)
      else processReports t (acc ++ [format_dates_in_crash crash]) rest

/-- One day of `main` after the index creation and the fetch: all
`index_crashes` submissions of the day (the mid-loop ones plus, when the
final pending list is non-empty, the end-of-day one), and the decode
error if the day aborted. -/
def dayOutcome (t : Int) (reports : List RawDoc) : List (List Record) × Option String :=
  match processReports t [] reports with
  | (bs, Except.ok fin) => (bs ++ (if fin.isEmpty then [] else [fin]), none)
  | (bs, Except.error msg) => (bs, some msg)

/-- An observable side effect of the run: a call to
`es_storage.create_index` or to `index_crashes` (a bulk write). -/
inductive Event where
  | createIndex (es_idx : Option String)
  | bulkWrite (es_idx : Option String) (crashes : List Record)
deriving DecidableEq

/-- The configuration options of the app that the loop reads. -/
structure Config where
  end_date : Date
  duration : Int
  index_doc_number : Int
  elasticsearch_idx : String
deriving DecidableEq

/-- The day loop of `main` over an explicit list of days: for each day,
call `create_index` (unconditionally, with whatever
`get_index_for_date` returned), fetch the day's reports, process them,
and move on. An uncaught exception — a fetch failure or a `json.loads`
failure — ends the run there, keeping the events already emitted. -/
def runOverDays (cfg : Config) (fetch : Date → Except String (List RawDoc)) :
    List Date → List Event × Option String
  | [] => ([], none)
  | date :: rest =>
    let esIdx := get_index_for_date cfg.elasticsearch_idx date
    match fetch date with
    | Except.error msg => ([Event.createIndex esIdx], some msg)
    | Except.ok reports =>
      match dayOutcome cfg.index_doc_number reports with
      | (batches, some msg) =>
        (Event.createIndex esIdx :: batches.map (Event.bulkWrite esIdx), some msg)
      | (batches, none) =>
        let next := runOverDays cfg fetch rest
        (Event.createIndex esIdx :: (batches.map (Event.bulkWrite esIdx) ++ next.1), next.2)

/-- `ElasticsearchBackfillApp.main`, given a per-day fetch result. -/
def runBackfill (cfg : Config) (fetch : Date → Except String (List RawDoc)) :
    List Event × Option String :=
  runOverDays cfg fetch (backfillDays cfg.end_date cfg.duration)

/-- Modelled from the spec: the retry loop inside the HBase client
(`get_list_of_processed_json_for_date`, not under `src/`) makes one
attempt and retries it on failure, up to `retries` more times. -/
def fetchAttempts (attempt : Nat → Except String (List RawDoc)) :
    Nat → Nat → Except String (List RawDoc)
  | i, 0 => attempt i
  | i, r + 1 =>
    match attempt i with
    | Except.ok v => Except.ok v
    | Except.error _ => fetchAttempts attempt (i + 1) r

/-- Modelled from the spec: fetch a day's reports with the bounded retry
policy, starting at attempt 0. -/
def fetchWithRetry (attempt : Nat → Except String (List RawDoc)) (retries : Nat) :
    Except String (List RawDoc) :=
  fetchAttempts attempt 0 retries

/-- `ElasticsearchBackfillApp.main` end to end: each day's reports are
fetched through the retry policy with `number_of_retries=5`, exactly as
`main` passes it. `attempt d i` is what the source returns for day `d`
on its `i`-th fetch attempt. -/
def mainBackfill (cfg : Config) (attempt : Date → Nat → Except String (List RawDoc)) :
    List Event × Option String :=
  runBackfill cfg (fun d => fetchWithRetry (attempt d) 5)

/-! ## Batching lemmas -/

lemma batchFold_small (t : Int) :
    ∀ (rs acc : List Record), (acc.length : Int) + rs.length ≤ t + 1 →
      batchFold t acc rs = ([], acc ++ rs) := by
  intro rs
  induction rs with
  | nil => intro acc h; simp [batchFold]
  | cons c rest ih =>
    intro acc h
    have hle : ¬ ((acc.length : Int) > t) := by
      simp only [List.length_cons] at h
      push_cast at h ⊢
      omega
    have h2 : (((acc ++ [c]).length : Nat) : Int) + rest.length ≤ t + 1 := by
      simp only [List.length_append, List.length_cons, List.length_nil] at h ⊢
      push_cast at h ⊢
      omega
    rw [show batchFold t acc (c :: rest) = batchFold t (acc ++ [c]) rest by
      simp [batchFold, hle]]
    rw [ih (acc ++ [c]) h2]
    simp

lemma batchFold_append (t : Int) :
    ∀ (xs ys : List Record) (acc : List Record),
      batchFold t acc (xs ++ ys) =
        ((batchFold t acc xs).1 ++ (batchFold t (batchFold t acc xs).2 ys).1,
         (batchFold t (batchFold t acc xs).2 ys).2) := by
  intro xs
  induction xs with
  | nil => intro ys acc; simp [batchFold]
  | cons c rest ih =>
    intro ys acc
    by_cases hgt : (acc.length : Int) > t
    · simp only [List.cons_append, batchFold, if_pos hgt, List.append_eq, ih]
    · simp only [List.cons_append, batchFold, if_neg hgt, List.append_eq, ih]

lemma batchFold_join (t : Int) :
    ∀ (rs acc : List Record),
      (batchFold t acc rs).1.flatten ++ (batchFold t acc rs).2 = acc ++ rs := by
  intro rs
  induction rs with
  | nil => intro acc; simp [batchFold]
  | cons c rest ih =>
    intro acc
    by_cases hgt : (acc.length : Int) > t
    · simp only [batchFold, if_pos hgt, List.flatten_cons, List.append_assoc, ih [c]]
      simp
    · simp only [batchFold, if_neg hgt, ih (acc ++ [c])]
      simp

/-- When every report of the day decodes, these are the decoded records
in fetch order. -/
def allOk : List RawDoc → Option (List Record)
  | [] => some []
  | RawDoc.ok r :: rest => (allOk rest).map (fun rs => r :: rs)
  | RawDoc.bad _ :: _ => none

lemma processReports_allOk (t : Int) :
    ∀ (docs : List RawDoc) (rs : List Record) (acc : List Record),
      allOk docs = some rs →
      processReports t acc docs =
        ((batchFold t acc (rs.map format_dates_in_crash)).1,
         Except.ok (batchFold t acc (rs.map format_dates_in_crash)).2) := by
  intro docs
  induction docs with
  | nil =>
    intro rs acc h
    simp only [allOk, Option.some.injEq] at h
    subst h
    simp [processReports, batchFold]
  | cons raw rest ih =>
    intro rs acc h
    cases raw with
    | bad msg => simp [allOk] at h
    | ok r =>
      simp only [allOk, Option.map_eq_some'] at h
      obtain ⟨rs2, hrs2, hcons⟩ := h
      subst hcons
      by_cases hgt : (acc.length : Int) > t
      · simp only [processReports, jsonLoads, if_pos hgt, List.map_cons, batchFold,
          ih rs2 [format_dates_in_crash r] hrs2]
      · simp only [processReports, jsonLoads, if_neg hgt, List.map_cons, batchFold,
          ih rs2 (acc ++ [format_dates_in_crash r]) hrs2]

/-! ## Concrete fixtures -/

/-- A crash record with a date field and a non-date field. -/
def r0 : Record := [("date_processed", JValue.str "2024-03-10 12:34:56"), ("uuid", JValue.str "abc")]

/-- Concrete crash records with non-date values. -/
def recA : Record := [("uuid", JValue.str "a")]

/-- Second concrete crash record. -/
def recB : Record := [("uuid", JValue.str "b")]

/-- Third concrete crash record. -/
def recC : Record := [("uuid", JValue.str "c")]

/-! ## Claims -/

/-- C2, counterexample: with threshold 0, offering `0 + 1 = 1` record to
the batching loop yields NO ready batch (the record stays pending),
because `main` tests `len(crashes_to_index) > index_doc_number` BEFORE
appending; the claim predicts exactly one ready batch of size 1. -/
theorem c2_counterexample :
    (batchFold 0 [] [recA]).1.length = 0 ∧ (batchFold 0 [] [recA]).1.length ≠ 1 ∧
    (batchFold 0 [] [recA]).2 = [recA] := by
  refine ⟨rfl, by decide, rfl⟩

/-- C2, amended: the batching loop tests the pending count against the
threshold BEFORE appending the offered record. Hence offering up to
`t + 1` records yields no ready batch (they all stay pending), and
offering `t + 2` records yields exactly one ready batch, holding the
first `t + 1` records, with the last record pending. -/
theorem c2_amended_flush_before_append (t : Nat) (rs : List Record) :
    (rs.length ≤ t + 1 → batchFold t [] rs = ([], rs)) ∧
    (rs.length = t + 2 →
      batchFold t [] rs = ([rs.take (t + 1)], rs.drop (t + 1))) := by
  constructor
  · intro h
    have := batchFold_small (t : Int) rs []
    simp only [List.length_nil, Nat.cast_zero, zero_add, List.nil_append] at this
    exact this (by omega)
  · intro h
    have htake : (rs.take (t + 1)).length = t + 1 := by
      rw [List.length_take]
      omega
    have hdrop1 : (rs.drop (t + 1)).length = 1 := by
      rw [List.length_drop, h]
      omega
    obtain ⟨z, hz⟩ := List.length_eq_one.mp hdrop1
    have hsmall : batchFold (t : Int) [] (rs.take (t + 1)) = ([], rs.take (t + 1)) := by
      have := batchFold_small (t : Int) (rs.take (t + 1)) []
      simp only [List.length_nil, Nat.cast_zero, zero_add, List.nil_append] at this
      exact this (by rw [htake]; push_cast; omega)
    have hgt : ((rs.take (t + 1)).length : Int) > t := by
      rw [htake]
      push_cast
      omega
    have hone : batchFold (t : Int) (rs.take (t + 1)) [z] = ([rs.take (t + 1)], [z]) := by
      simp only [batchFold]
      rw [if_pos hgt]
    calc batchFold (t : Int) [] rs
        = batchFold (t : Int) [] (rs.take (t + 1) ++ rs.drop (t + 1)) := by
          rw [List.take_append_drop]
      _ = ([rs.take (t + 1)], rs.drop (t + 1)) := by
          rw [batchFold_append, hsmall, hz, hone, List.nil_append]

/-- The day's reports in the C3 counterexample: one good record, one
malformed payload, one more good record. -/
def fetchC3 : Date → Except String (List RawDoc) :=
  fun _ => Except.ok [RawDoc.ok recA, RawDoc.bad "malformed", RawDoc.ok recB]

/-- Configuration for the C3 counterexample: one day, threshold 50,
fixed index template. -/
def cfgC3 : Config := ⟨⟨2024, 3, 10⟩, 1, 50, "socorro"⟩

/-- C2 amended witness: threshold 1 — three offers yield one ready
batch of the first two records, two offers yield none. -/
theorem c2_amended_witness :
    batchFold ((1 : Nat) : Int) [] [recA, recB, recC] = ([[recA, recB]], [recC]) ∧
    batchFold ((1 : Nat) : Int) [] [recA, recB] = ([], [recA, recB]) := by
  constructor
  · have h := (c2_amended_flush_before_append 1 [recA, recB, recC]).2 (by decide)
    simpa using h
  · exact (c2_amended_flush_before_append 1 [recA, recB]).1 (by decide)

/-- C3, counterexample: `main` wraps no try/except around
`json.loads(report)`, so a malformed payload raises out of the loop: the
run stops with the error, the good records of the day (`recA`, `recB`)
are never written, and no further day runs. The claim predicted the
malformed record is discarded and the day completes with
`fetched − malformed = 2` records processed. -/
theorem c3_counterexample :
    runBackfill cfgC3 fetchC3 = ([Event.createIndex (some "socorro")], some "malformed") ∧
    (runBackfill cfgC3 fetchC3).2 ≠ none := by
  refine ⟨by decide, by decide⟩

/-- C3, amended: a report whose payload fails to deserialize aborts the
day on the spot — the remaining reports are not processed, the pending
crashes are dropped, and the error propagates (ending the run). -/
theorem c3_amended_deserialize_abort (t : Int) (acc : List Record) (msg : String)
    (rest : List RawDoc) :
    processReports t acc (RawDoc.bad msg :: rest) = ([], Except.error msg) := rfl

/-- C5: `format_dates_in_crash` is idempotent on every record, and any
field value that is not a recognized date/time string (the parse fails,
`string_to_datetime` raises) is left bit-for-bit unchanged. -/
theorem c5_normalize_idempotent (r : Record) (v : JValue) :
    format_dates_in_crash (format_dates_in_crash r) = format_dates_in_crash r ∧
    (string_to_datetime v = none → formatDateValue v = v) := by
  constructor
  · simp only [format_dates_in_crash, List.map_map]
    induction r with
    | nil => rfl
    | cons kv rest ih =>
      simp only [List.map_cons, Function.comp_apply, formatDateValue_idem, List.cons.injEq]
      exact ⟨trivial, by simpa only [List.map_map] using ih⟩
  · intro h
    simp [formatDateValue, h]

/-- C5 witness at a concrete record (a date field in an accepted
non-canonical format plus a non-date field) and value. -/
theorem c5_witness :
    format_dates_in_crash (format_dates_in_crash r0) = format_dates_in_crash r0 ∧
    formatDateValue (JValue.str "abc") = JValue.str "abc" :=
  ⟨(c5_normalize_idempotent r0 (JValue.str "abc")).1,
   (c5_normalize_idempotent r0 (JValue.str "abc")).2 (by decide)⟩

/-- C6: normalization is total over records — it always returns a record
with the same fields in the same order, and null, numeric, boolean,
empty-string, numeric-looking-string, and generally any non-date values
pass through unchanged; no field ever makes the whole record fail. -/
theorem c6_normalize_total (r : Record) (n : Int) (b : Bool) (s : String) :
    (format_dates_in_crash r).map Prod.fst = r.map Prod.fst ∧
    formatDateValue JValue.null = JValue.null ∧
    formatDateValue (JValue.num n) = JValue.num n ∧
    formatDateValue (JValue.bool b) = JValue.bool b ∧
    formatDateValue (JValue.str "") = JValue.str "" ∧
    formatDateValue (JValue.str "12345") = JValue.str "12345" ∧
    (string_to_datetime (JValue.str s) = none →
      formatDateValue (JValue.str s) = JValue.str s) := by
  refine ⟨?_, rfl, rfl, rfl, by decide, by decide, ?_⟩
  · induction r with
    | nil => rfl
    | cons kv rest ih =>
      simpa only [format_dates_in_crash, List.map_cons, List.cons.injEq] using ⟨trivial, ih⟩
  · intro h
    simp [formatDateValue, h]

/-- C6 witness at a concrete record and a concrete non-date string. -/
theorem c6_witness :
    (format_dates_in_crash r0).map Prod.fst = r0.map Prod.fst ∧
    formatDateValue (JValue.str "hello") = JValue.str "hello" :=
  ⟨(c6_normalize_total r0 0 false "hello").1,
   (c6_normalize_total r0 0 false "hello").2.2.2.2.2.2 (by decide)⟩

/-- C7: the day window the orchestrator iterates has length exactly
`duration` when `duration > 0`, starts at `end_date`, steps back exactly
one calendar day at a time (each day is `predDay` of the previous, hence
strictly chronologically smaller), and is empty — not an error — when
`duration <= 0` (Python `range` of a non-positive count is empty). -/
theorem c7_date_window (e : Date) (dur : Int) :
    (0 < dur → ((backfillDays e dur).length : Int) = dur ∧
      (backfillDays e dur).head? = some e) ∧
    List.Chain' (fun a b => b = predDay a ∧ dateLt b a) (backfillDays e dur) ∧
    (dur ≤ 0 → backfillDays e dur = []) := by
  refine ⟨?_, daysFrom_chain e dur.toNat, ?_⟩
  · intro h
    constructor
    · rw [backfillDays, daysFrom_length]
      omega
    · rw [backfillDays]
      obtain ⟨n, hn⟩ : ∃ n, dur.toNat = n + 1 := ⟨dur.toNat - 1, by omega⟩
      rw [hn]
      rfl
  · intro h
    rw [backfillDays, show dur.toNat = 0 by omega]
    rfl

/-- C7 witness: the window for `end_date = 2024-03-10`, `duration = 2`. -/
theorem c7_witness :
    ((backfillDays ⟨2024, 3, 10⟩ 2).length : Int) = 2 ∧
    (backfillDays ⟨2024, 3, 10⟩ 2).head? = some ⟨2024, 3, 10⟩ :=
  (c7_date_window ⟨2024, 3, 10⟩ 2).1 (by norm_num)

/-- C8: `get_index_for_date` with an empty template yields no name; with
a non-empty template holding no date-format placeholder it yields the
template itself (whether or not a lone `%` appears, `strftime` passes
non-directives through); with any `%` in the template it yields the
day's `strftime` of the template. It is a pure function of its
arguments and is total on every `Date` value. -/
theorem c8_index_name (day : Date) (t : String) :
    get_index_for_date "" day = none ∧
    (t ≠ "" → noPlaceholder t.data = true → get_index_for_date t day = some t) ∧
    (t ≠ "" → '%' ∈ t.data → get_index_for_date t day = some ⟨strftimeChars day t.data⟩) := by
  refine ⟨rfl, ?_, ?_⟩
  · intro hne hnp
    rw [get_index_for_date, if_neg hne]
    by_cases hp : '%' ∈ t.data
    · rw [if_pos hp, strftimeChars_id day t.data.length t.data le_rfl hnp]
    · rw [if_neg hp]
  · intro hne hp
    rw [get_index_for_date, if_neg hne, if_pos hp]

/-- C8 witness: empty template, fixed template, and a template with a
date-format pattern, at a concrete day. -/
theorem c8_witness :
    get_index_for_date "" ⟨2024, 3, 10⟩ = none ∧
    get_index_for_date "fixed" ⟨2024, 3, 10⟩ = some "fixed" ∧
    get_index_for_date "socorro_%y%m%d" ⟨2024, 3, 10⟩ = some "socorro_240310" := by
  refine ⟨(c8_index_name ⟨2024, 3, 10⟩ "fixed").1,
    (c8_index_name ⟨2024, 3, 10⟩ "fixed").2.1 (by decide) (by decide), ?_⟩
  rw [(c8_index_name ⟨2024, 3, 10⟩ "socorro_%y%m%d").2.2 (by decide) (by decide)]
  decide

/-- A fetch that succeeds with an empty report list for every day. -/
def fetchEmpty : Date → Except String (List RawDoc) := fun _ => Except.ok []

lemma runOverDays_empty_template (cfg : Config) (hidx : cfg.elasticsearch_idx = "") :
    ∀ (days : List Date),
      runOverDays cfg fetchEmpty days =
        (List.replicate days.length (Event.createIndex none), none) := by
  intro days
  induction days with
  | nil => rfl
  | cons d rest ih =>
    have hname : get_index_for_date cfg.elasticsearch_idx d = none := by
      rw [hidx]
      rfl
    simp only [runOverDays, hname, fetchEmpty, dayOutcome, processReports, List.isEmpty_nil,
      if_true, List.append_nil, List.map_nil, List.nil_append, ih, List.length_cons,
      List.replicate_succ]

/-- Configuration for the C4 counterexample: empty index template. -/
def cfgC4 : Config := ⟨⟨2024, 3, 10⟩, 1, 50, ""⟩

/-- C4, counterexample: with an empty `elasticsearch_index` template,
`get_index_for_date` returns `None`, yet `main` still calls
`self.es_storage.create_index(es_index)` unconditionally — one creation
request per day, carrying the absent name. The claim predicted no
index-partition creation request at all for such a day. -/
theorem c4_counterexample :
    (runBackfill cfgC4 fetchEmpty).1 = [Event.createIndex none] ∧
    (runBackfill cfgC4 fetchEmpty).1 ≠ [] := by
  refine ⟨by decide, by decide⟩

/-- C4, amended: when the configured index template is empty the
partition name is indeed absent (`get_index_for_date` returns `None`),
but partition creation is NOT skipped: `main` issues the
`create_index` call unconditionally for every processed day, passing the
absent name — one creation event per day of the window. -/
theorem c4_amended_create_called_with_absent_name (day e : Date) (n : Nat) (t : Int) :
    get_index_for_date "" day = none ∧
    runBackfill ⟨e, (n : Int), t, ""⟩ fetchEmpty =
      (List.replicate n (Event.createIndex none), none) := by
  refine ⟨rfl, ?_⟩
  rw [runBackfill, runOverDays_empty_template ⟨e, (n : Int), t, ""⟩ rfl]
  rw [backfillDays, show ((n : Int)).toNat = n by omega, daysFrom_length]

/-- The reports for the C9 and C10 scenarios: the source always fails
for 2024-03-10 and would succeed for any other day. -/
def attemptC9 : Date → Nat → Except String (List RawDoc) := fun d _ =>
  if d = ⟨2024, 3, 10⟩ then Except.error "boom" else Except.ok [RawDoc.ok recB]

/-- Configuration for the C9 counterexample: two days. -/
def cfgC9 : Config := ⟨⟨2024, 3, 10⟩, 2, 50, "socorro"⟩

/-- C9, counterexample: the first day's fetch exhausts its retries
(`number_of_retries=5`) and raises; `main` has no try/except around the
fetch, so the whole run stops: the second day (2024-03-09), whose fetch
would have succeeded with one record, is never processed — no
`create_index` and no write for it. The claim predicted the orchestrator
continues with the next day. -/
theorem c9_counterexample :
    mainBackfill cfgC9 attemptC9 = ([Event.createIndex (some "socorro")], some "boom") ∧
    (mainBackfill cfgC9 attemptC9).1.length = 1 := by
  refine ⟨by decide, by decide⟩

lemma fetchAttempts_agree (a b : Nat → Except String (List RawDoc)) :
    ∀ (r i : Nat), (∀ j, j ≤ r → a (i + j) = b (i + j)) →
      fetchAttempts a i r = fetchAttempts b i r := by
  intro r
  induction r with
  | zero =>
    intro i h
    simpa using h 0 (Nat.le_refl 0)
  | succ r ih =>
    intro i h
    have h0 : a i = b i := by simpa using h 0 (by omega)
    simp only [fetchAttempts, h0]
    cases b i with
    | ok v => rfl
    | error msg =>
      exact ih (i + 1) fun j hj => by
        have := h (j + 1) (by omega)
        simpa [Nat.add_assoc, Nat.add_comm 1 j] using this

/-- C9, amended: the fetch is bounded — with `number_of_retries=5` the
result is determined by attempts 0 through 5 alone (one initial attempt
plus at most 5 retries) — but when the retries are exhausted the fetch
error aborts the ENTIRE run at that day: the run ends with that day's
`create_index` as its last event and the error as its outcome, and no
later day is processed. -/
theorem c9_amended_abort_run :
    (∀ (a b : Nat → Except String (List RawDoc)),
        (∀ i, i ≤ 5 → a i = b i) → fetchWithRetry a 5 = fetchWithRetry b 5) ∧
    (∀ (cfg : Config) (attempt : Date → Nat → Except String (List RawDoc)) (msg : String),
        0 < cfg.duration →
        fetchWithRetry (attempt cfg.end_date) 5 = Except.error msg →
        mainBackfill cfg attempt =
          ([Event.createIndex (get_index_for_date cfg.elasticsearch_idx cfg.end_date)],
           some msg)) := by
  constructor
  · intro a b h
    exact fetchAttempts_agree a b 5 0 fun j hj => by simpa using h j hj
  · intro cfg attempt msg hdur hfetch
    rw [mainBackfill, runBackfill, backfillDays]
    obtain ⟨n, hn⟩ : ∃ n, cfg.duration.toNat = n + 1 := ⟨cfg.duration.toNat - 1, by omega⟩
    rw [hn]
    simp only [daysFrom, runOverDays, hfetch]

/-- C9 witness: part one at an always-failing oracle, part two at the
concrete two-day scenario. -/
theorem c9_witness :
    fetchWithRetry (attemptC9 ⟨2024, 3, 10⟩) 5 =
      fetchWithRetry (attemptC9 ⟨2024, 3, 10⟩) 5 ∧
    mainBackfill cfgC9 attemptC9 = ([Event.createIndex (some "socorro")], some "boom") := by
  refine ⟨c9_amended_abort_run.1 _ _ (fun i _ => rfl), ?_⟩
  rw [c9_amended_abort_run.2 cfgC9 attemptC9 "boom" (by decide) (by rfl)]
  decide

lemma dayOutcome_ok (t : Int) (docs : List RawDoc) (bs : List (List Record))
    (fin : List Record) (h : processReports t [] docs = (bs, Except.ok fin)) :
    dayOutcome t docs = (bs ++ (if fin.isEmpty then [] else [fin]), none) := by
  rw [dayOutcome, h]

/-- C10: for a day whose fetched reports all deserialize, the
concatenation of that day's bulk-write submissions, in submission order
(mid-loop flushes followed by the end-of-day flush), is exactly the
day's fetched records after normalization, in fetch order — none lost,
none duplicated, none reordered — and the day completes without error. -/
theorem c10_no_loss (t : Int) (docs : List RawDoc) (rs : List Record)
    (h : allOk docs = some rs) :
    (dayOutcome t docs).1.flatten = rs.map format_dates_in_crash ∧
    (dayOutcome t docs).2 = none := by
  have hp := processReports_allOk t docs rs [] h
  have hd := dayOutcome_ok t docs _ _ hp
  have hj := batchFold_join t (rs.map format_dates_in_crash) []
  simp only [List.nil_append] at hj
  rw [hd]
  refine ⟨?_, rfl⟩
  by_cases hfin : (batchFold t [] (rs.map format_dates_in_crash)).2.isEmpty
  · rw [if_pos hfin, List.append_nil]
    rw [List.isEmpty_iff] at hfin
    rw [hfin, List.append_nil] at hj
    exact hj
  · rw [if_neg hfin, List.flatten_append]
    simpa using hj

/-- C10 witness: a concrete two-record day with threshold 1. -/
theorem c10_witness :
    (dayOutcome 1 [RawDoc.ok recA, RawDoc.ok recB]).1.flatten =
      [recA, recB].map format_dates_in_crash ∧
    (dayOutcome 1 [RawDoc.ok recA, RawDoc.ok recB]).2 = none :=
  c10_no_loss 1 [RawDoc.ok recA, RawDoc.ok recB] [recA, recB] (by decide)

/-- Is the event an index-partition-create call? -/
def isCreateEvent : Event → Bool
  | Event.createIndex _ => true
  | _ => false

/-- Is the event a bulk-write call? -/
def isWriteEvent : Event → Bool
  | Event.bulkWrite _ _ => true
  | _ => false

/-- Configuration for the C1 end-to-end scenario: `end_date =
2024-03-10`, `duration = 2`, `index_doc_number = 1` (the batch
threshold), dated index template. -/
def cfgC1 : Config := ⟨⟨2024, 3, 10⟩, 2, 1, "socorro_%y%m%d"⟩

/-- The source for the C1 scenario: three raw records for 2024-03-10
and none for 2024-03-09 (every attempt succeeds). -/
def attemptC1 : Date → Nat → Except String (List RawDoc) := fun d _ =>
  if d.day = 10 then Except.ok [RawDoc.ok recA, RawDoc.ok recB, RawDoc.ok recC]
  else Except.ok []

/-- C1: the end-to-end scenario. The run performs exactly two
index-partition-create calls (one per day, in day order), exactly two
bulk writes for 2024-03-10 — of sizes 2 then 1, in that order, since the
loop tests `pending > 1` before appending — and no bulk write for
2024-03-09, and it succeeds. -/
theorem c1_end_to_end_scenario :
    mainBackfill cfgC1 attemptC1 =
      ([Event.createIndex (some "socorro_240310"),
        Event.bulkWrite (some "socorro_240310") [recA, recB],
        Event.bulkWrite (some "socorro_240310") [recC],
        Event.createIndex (some "socorro_240309")], none) ∧
    (mainBackfill cfgC1 attemptC1).1.countP isCreateEvent = 2 ∧
    (mainBackfill cfgC1 attemptC1).1.countP isWriteEvent = 2 ∧
    ((mainBackfill cfgC1 attemptC1).1.filter isWriteEvent).map
        (fun e => match e with | Event.bulkWrite _ crashes => crashes.length | _ => 0) =
      [2, 1] := by
  refine ⟨by decide, by decide, by decide, by decide⟩

end Backfill
